/-
Verification of the List ADT implemented in src/main.cpp (erisco/cpp-list-adt).

The C++ code defines an immutable singly-linked list
  data List a = Cons { head :: a, tail :: List a } | Nil
with a single elimination operation `cases`, two constructors `cons`/`nil`,
a right-associative construction operator `&=`, a right fold `foldr`, the
derived combinators `sum`, `map`, `filter`, and a textual rendering
`operator<<`.  This file is a shallow embedding of those operations and
proofs of the specified properties.
-/
import Mathlib

set_option autoImplicit false

namespace LADT

/--
The List ADT of src/main.cpp (lines 18-84).  The C++ class stores a `Tag`
(`Cons` or `Nil`), a `head` of type `T` and a `tail` shared pointer, used only
when the tag is `Cons`; values are built exclusively through the `cons` and
`nil` smart constructors and never mutated, so as values they are exactly this
inductive type.  The `shared_ptr` aliasing of tails has no observable effect on
values and is not modelled.
-/
inductive CList (T : Type) where
  | cons (head : T) (tail : CList T)
  | nil
  deriving DecidableEq

/--
Elimination for the List ADT: `List<T>::cases` (src/main.cpp lines 54-62).
It switches on the stored tag and applies `cons_case` to the stored head and
tail, or `nil_case` to no arguments.
-/
def CList.cases {T : Type} {R : Type} (l : CList T)
    (cons_case : T → CList T → R) (nil_case : Unit → R) : R :=
  match l with
  | CList.cons head tail => cons_case head tail
  | CList.nil => nil_case ()

/--
The overloaded right-associative `operator&=` (src/main.cpp lines 106-109):
its body is exactly `List<T>::cons(head, tail)`.
-/
def opAmp {T : Type} (head : T) (tail : CList T) : CList T :=
  CList.cons head tail

/--
Right fold `foldr` (src/main.cpp lines 114-122).  The C++ body is
`list->cases(fun head tail => f head (foldr f acc tail), fun _ => acc)`;
Lean's termination checker needs the structural match written out, and
`foldr_eq_cases` below records that the two forms coincide.
-/
def foldr {R T : Type} (f : T → R → R) (acc : R) : CList T → R
  | CList.cons head tail => f head (foldr f acc tail)
  | CList.nil => acc

/-- `foldr` is literally the `cases`-dispatch written in the C++ source. -/
theorem foldr_eq_cases {R T : Type} (f : T → R → R) (acc : R) (l : CList T) :
    foldr f acc l =
      CList.cases l (fun head tail => f head (foldr f acc tail)) (fun _ => acc) := by
  cases l <;> rfl

/--
`sum` (src/main.cpp lines 127-130): `foldr (fun i s => i + s) ((T) 0) list`.
The cast `(T) 0` is modelled by the `Zero` instance.
-/
def sum {T : Type} [Add T] [Zero T] (list : CList T) : T :=
  foldr (fun i s => i + s) (0 : T) list

/--
`map` (src/main.cpp lines 135-142):
`foldr (fun x us => f x &= us) nil ts`.  The C++ template takes `f : T -> U`
but declares the input list at type `List<U>::ptr` and instantiates
`foldr<List<U>::ptr, T>` on it, which typechecks only when `T = U`
(see `Ty` and `mapInstOK` below), so the embedding fixes `T = U`.
-/
def map {T : Type} (f : T → T) (ts : CList T) : CList T :=
  foldr (fun x us => opAmp (f x) us) CList.nil ts

/--
Rendering `operator<<` (src/main.cpp lines 162-173): a `cases` dispatch that
prints `head << " &= " << *tail` on a cons node and `"nil"` on a nil node.
The stream output of a single element is modelled by `toString`.
-/
def render {T : Type} [ToString T] : CList T → String
  | CList.cons head tail => toString head ++ " &= " ++ render tail
  | CList.nil => "nil"

/-! ### Abstraction functions, used only to state specifications -/

/-- Abstraction: the sequence of elements of a `CList`, as a Lean `List`. -/
def toList {T : Type} : CList T → List T
  | CList.cons head tail => head :: toList tail
  | CList.nil => []

/-- Abstraction: build a `CList` from a Lean `List` (inverse of `toList`). -/
def ofList {T : Type} : List T → CList T
  | head :: tail => CList.cons head (ofList tail)
  | [] => CList.nil

/-- Abstraction: number of cons nodes (the length of the list). -/
def clength {T : Type} : CList T → Nat
  | CList.cons _ tail => clength tail + 1
  | CList.nil => 0

/-- Abstraction: the i-th element, if any. -/
def nth {T : Type} : CList T → Nat → Option T
  | CList.nil, _ => none
  | CList.cons head _, 0 => some head
  | CList.cons _ tail, i + 1 => nth tail i

@[simp] theorem toList_cons {T : Type} (h : T) (t : CList T) :
    toList (CList.cons h t) = h :: toList t := rfl

@[simp] theorem toList_nil {T : Type} : toList (CList.nil : CList T) = [] := rfl

@[simp] theorem toList_ofList {T : Type} (l : List T) : toList (ofList l) = l := by
  induction l with
  | nil => rfl
  | cons h t ih => simp [ofList, ih]

@[simp] theorem ofList_toList {T : Type} (l : CList T) : ofList (toList l) = l := by
  induction l with
  | cons h t ih => simp [ofList, ih]
  | nil => rfl

theorem toList_injective {T : Type} {a b : CList T}
    (h : toList a = toList b) : a = b := by
  have := congrArg ofList h
  simpa using this

@[simp] theorem clength_eq_length_toList {T : Type} (l : CList T) :
    clength l = (toList l).length := by
  induction l with
  | cons h t ih => simp [clength, ih]
  | nil => rfl

@[simp] theorem clength_ofList {T : Type} (l : List T) :
    clength (ofList l) = l.length := by
  simp

/-! ### filter (src/main.cpp lines 147-157)

The C++ `filter` is `foldr(g, nil, list)` with the combining function
`g(head, tail) = if f(head) then head &= filter(f, tail) else filter(f, tail)`.
The lambda's second parameter (named `tail` in the source) is the value
`foldr` has already computed for the tail of the node, so `g` calls `filter`
again, recursively, on that intermediate result.  This recursion is not
structural (it recurses on the output of the fold), so the embedding uses
explicit fuel; `filterGo_adequate` proves that fuel `clength l + 1` always
suffices, and the wrapper `filter` supplies exactly that fuel.  Alongside the
result we count the number of `cases` eliminations performed (one per `foldr`
node visit), which is the cost measure of §5 of the specification
("each node visited exactly once").
-/

/--
Fueled evaluator for the C++ `filter`, returning the result together with the
number of `cases` eliminations performed.  A cons node costs the elimination
of the node itself (1), plus the fold of the tail (`c1`), plus the recursive
`filter` that the combining function applies to the folded tail (`c2`); both
branches of the C++ `if` perform that same recursive call.
-/
def filterGo {T : Type} (f : T → Bool) : Nat → CList T → Option (CList T × Nat)
  | 0, _ => none
  | _ + 1, CList.nil => some (CList.nil, 1)
  | fuel + 1, CList.cons head tail =>
      match filterGo f fuel tail with
      | none => none
      | some (r, c1) =>
          match filterGo f fuel r with
          | none => none
          | some (r2, c2) =>
              some (if f head then (opAmp head r2, 1 + c1 + c2)
                    else (r2, 1 + c1 + c2))

/-- Fuel `clength l + 1` always suffices, and the result is `List.filter`. -/
theorem filterGo_adequate {T : Type} (f : T → Bool) :
    ∀ (n : Nat) (l : CList T), clength l < n →
      ∃ c, filterGo f n l = some (ofList ((toList l).filter f), c) := by
  intro n
  induction n with
  | zero => intro l h; omega
  | succ m ih =>
      intro l h
      cases l with
      | nil => exact ⟨1, rfl⟩
      | cons head tail =>
          have htail : clength tail < m := by
            simp only [clength] at h; omega
          obtain ⟨c1, h1⟩ := ih tail htail
          have hr : clength (ofList ((toList tail).filter f)) < m := by
            have hlen := List.length_filter_le f (toList tail)
            have htl := htail
            rw [clength_eq_length_toList] at htl
            rw [clength_ofList]
            omega
          obtain ⟨c2, h2⟩ := ih (ofList ((toList tail).filter f)) hr
          have hidem : ((toList tail).filter f).filter f = (toList tail).filter f := by
            rw [List.filter_filter]; simp
          refine ⟨1 + c1 + c2, ?_⟩
          rw [toList_ofList] at h2
          rw [hidem] at h2
          simp only [toList_cons, List.filter_cons]
          cases hf : f head with
          | true =>
              simp only [filterGo, h1, h2, hf, if_true]
              simp [ofList, opAmp]
          | false =>
              simp only [filterGo, h1, h2, hf]
              simp

/--
The C++ `filter` (src/main.cpp lines 147-157), as the fueled evaluator run
with the always-sufficient fuel `clength list + 1`.  The `none` branch is
unreachable by `filterGo_adequate`.
-/
def filter {T : Type} (f : T → Bool) (list : CList T) : CList T :=
  match filterGo f (clength list + 1) list with
  | some (r, _) => r
  | none => CList.nil

/-- Number of `cases` eliminations (node visits) performed by the C++ `filter`. -/
def filterVisits {T : Type} (f : T → Bool) (list : CList T) : Nat :=
  match filterGo f (clength list + 1) list with
  | some (_, c) => c
  | none => 0

/-- What the C++ `filter` computes: exactly `List.filter` on the elements. -/
theorem filter_toList {T : Type} (f : T → Bool) (l : CList T) :
    toList (filter f l) = (toList l).filter f := by
  obtain ⟨c, h⟩ := filterGo_adequate f (clength l + 1) l (Nat.lt_succ_self _)
  simp only [filter, h, toList_ofList]

/--
The reference filter of the specification (§4.4):
`foldRight((x, acc) -> pred(x) ? prepend(x, acc) : acc, empty<T>(), list)` —
a pure parameterization of `foldr` with no independent recursion.
-/
def filterRef {T : Type} (pred : T → Bool) (list : CList T) : CList T :=
  foldr (fun x acc => if pred x then CList.cons x acc else acc) CList.nil list

/-- The reference filter also computes `List.filter` on the elements. -/
theorem filterRef_toList {T : Type} (pred : T → Bool) (l : CList T) :
    toList (filterRef pred l) = (toList l).filter pred := by
  induction l with
  | nil => rfl
  | cons head tail ih =>
      have hstep : filterRef pred (CList.cons head tail)
          = if pred head then CList.cons head (filterRef pred tail)
            else filterRef pred tail := rfl
      rw [hstep, toList_cons, List.filter_cons]
      cases hf : pred head with
      | true => simp [hf, ih]
      | false => simp [hf, ih]

/-- The C++ `filter` and the specification's reference filter agree on every input. -/
theorem filter_eq_filterRef {T : Type} (pred : T → Bool) (l : CList T) :
    filter pred l = filterRef pred l :=
  toList_injective ((filter_toList pred l).trans (filterRef_toList pred l).symm)

/--
Instrumented `foldr` (src/main.cpp lines 114-122) returning the result
together with the number of `cases` eliminations performed: one per node, the
combining function itself performing none.  This is the node-visit count of a
pure `foldr` parameterization such as the specification's reference filter,
whose combining function only tests the predicate and conses.
-/
def foldrV {R T : Type} (f : T → R → R) (acc : R) : CList T → R × Nat
  | CList.cons head tail =>
      let p := foldrV f acc tail
      (f head p.1, p.2 + 1)
  | CList.nil => (acc, 1)

/-! ### The C++ template typing of map (src/main.cpp lines 135-142)

`map` is declared `template<typename U, typename T>` with parameters
`std::function<U(T)> f` and `typename List<U>::ptr ts` — the input list is
declared at the OUTPUT element type `U`.  Its body instantiates
`foldr<typename List<U>::ptr, T>` and passes `ts` where `foldr` (line 115)
declares `typename List<T>::ptr list`.  Distinct instantiations `List<T>` and
`List<U>` are unrelated C++ class types (and `shared_ptr`s to them do not
convert), so the instantiation is well-formed exactly when the two list types
coincide.  The fragment of C++ types needed to state this is modelled
syntactically.
-/

/-- A fragment of C++ types: some scalar types and the `List` template. -/
inductive Ty where
  | tInt
  | tBool
  | tChar
  | tList (elem : Ty)
  deriving DecidableEq

/-- The declared type of map's list parameter `ts` (line 136): `List<U>::ptr`. -/
def mapTsParamTy (U : Ty) : Ty := Ty.tList U

/--
The type `foldr` expects for its `list` argument (line 115) under the
instantiation `foldr<typename List<U>::ptr, T>` made in map's body (line 137):
`List<T>::ptr`.
-/
def foldrListArgTy (T : Ty) : Ty := Ty.tList T

/--
Whether the instantiation `map<U, T>` typechecks: `ts`, of the declared
parameter type, is passed as foldr's `list` argument, and distinct `List`
instantiations are unrelated types, so this requires exact type equality.
-/
def mapInstOK (U T : Ty) : Bool := mapTsParamTy U == foldrListArgTy T

/-! ### The demonstration driver's values (src/main.cpp lines 178-199) -/

/-- The demo list `[1,2,3]` (`as` at line 181, `bs` at line 184). -/
def l123 : CList Int := CList.cons 1 (CList.cons 2 (CList.cons 3 CList.nil))

/-- The demo list `[2,4,6]` (`cs` at line 187, the doubled elements). -/
def l246 : CList Int := CList.cons 2 (CList.cons 4 (CList.cons 6 CList.nil))

/-- The demo predicate `x % 2 == 0` (line 190). -/
def evenB : Int → Bool := fun x => x % 2 == 0

/-- The specification's reference combining function for filter, at `evenB`. -/
def refCombine : Int → CList Int → CList Int :=
  fun x acc => if evenB x then CList.cons x acc else acc

/-! ### Helper lemmas about map and nth -/

theorem map_nil_eq {T : Type} (f : T → T) : map f CList.nil = CList.nil := rfl

theorem map_cons_eq {T : Type} (f : T → T) (h : T) (t : CList T) :
    map f (CList.cons h t) = CList.cons (f h) (map f t) := rfl

theorem clength_map {T : Type} (f : T → T) (l : CList T) :
    clength (map f l) = clength l := by
  induction l with
  | cons head tail ih => rw [map_cons_eq]; simp only [clength, ih]
  | nil => rfl

theorem nth_map {T : Type} (f : T → T) (l : CList T) (i : Nat) :
    nth (map f l) i = Option.map f (nth l i) := by
  induction l generalizing i with
  | cons head tail ih =>
      rw [map_cons_eq]
      cases i with
      | zero => rfl
      | succ j => simp only [nth, ih]
  | nil => rfl

/-! ### The specified properties -/

/--
C1.  Fold base case and fold unfold law: for every combining function `f`,
seed `seed`, head `h` and tail `t`, `foldr f seed nil = seed` and
`foldr f seed (cons h t) = f h (foldr f seed t)`.
-/
theorem c1_foldr_base_and_unfold :
    ∀ (T R : Type) (f : T → R → R) (seed : R) (h : T) (t : CList T),
      foldr f seed (CList.nil : CList T) = seed ∧
      foldr f seed (CList.cons h t) = f h (foldr f seed t) :=
  fun _ _ _ _ _ _ => ⟨rfl, rfl⟩

/--
C2 counterexample.  The claim that filter "is expressed purely as a
parameterization of foldRight with no independent recursion" fails on the
code: on the concrete list `[2,4,6]` with the even predicate, the C++ filter
performs 15 `cases` eliminations, while the pure foldRight parameterization
given by the specification performs the 4 of a single traversal — the
combining function in the source recursively re-invokes `filter` on the
already-folded accumulator.
-/
theorem c2_filter_not_pure_fold_param :
    filterVisits evenB l246 = 15 ∧
    (foldrV refCombine CList.nil l246).2 = 4 ∧
    filterVisits evenB l246 ≠ (foldrV refCombine CList.nil l246).2 := by
  refine ⟨by decide, by decide, by decide⟩

/--
C2 amended.  For every predicate `pred` and list `l`, the program's
`filter pred l` equals, as a value, the specification's reference definition
`foldRight((x, acc) -> pred(x) ? prepend(x, acc) : acc, empty, l)` — the
extensional refinement holds even though the source's combining function
additionally re-filters the accumulator.
-/
theorem c2_filter_eq_ref_extensional :
    ∀ (T : Type) (pred : T → Bool) (l : CList T),
      filter pred l = filterRef pred l :=
  fun _ pred l => filter_eq_filterRef pred l

/--
C3.  The `map` template only instantiates when the source and target element
types coincide: its list parameter is declared at the output element type
`List<U>`, its body passes that list to `foldr` at type `List<T>`, and the
instantiation typechecks exactly when `T = U`.
-/
theorem c3_map_forces_same_element_type :
    ∀ (T U : Ty), mapInstOK U T = true ↔ T = U := by
  intro T U
  constructor
  · intro hb
    have h1 : mapTsParamTy U = foldrListArgTy T := eq_of_beq hb
    have h2 : U = T := by simpa [mapTsParamTy, foldrListArgTy] using h1
    exact h2.symm
  · intro hTU
    subst hTU
    simp [mapInstOK, mapTsParamTy, foldrListArgTy]

/--
C4.  Construction/elimination round trip and elimination totality:
`cases (cons h t) onNonEmpty onEmpty = onNonEmpty h t`,
`cases nil onNonEmpty onEmpty = onEmpty ()`, every list is built by exactly
one of the two constructors, and the two constructors are distinct — so
`cases` invokes exactly one branch, matching the constructor used.
-/
theorem c4_cases_round_trip_and_totality :
    ∀ (T R : Type) (h : T) (t : CList T)
      (onNonEmpty : T → CList T → R) (onEmpty : Unit → R) (l : CList T),
      CList.cases (CList.cons h t) onNonEmpty onEmpty = onNonEmpty h t ∧
      CList.cases (CList.nil : CList T) onNonEmpty onEmpty = onEmpty () ∧
      ((∃ h0 t0, l = CList.cons h0 t0) ∨ l = CList.nil) ∧
      CList.cons h t ≠ (CList.nil : CList T) := by
  intro T R h t onNonEmpty onEmpty l
  refine ⟨rfl, rfl, ?_, fun hEq => CList.noConfusion hEq⟩
  cases l with
  | cons h0 t0 => exact Or.inl ⟨h0, t0, rfl⟩
  | nil => exact Or.inr rfl

/--
C5.  `sum` is `foldr` with the additive combining function and the zero value
of `T` as seed; concretely `sum [1,2,3] = 6` and `sum nil = 0` at `Int`.
-/
theorem c5_sum_is_additive_fold :
    (∀ (T : Type) [Add T] [Zero T] (l : CList T),
        sum l = foldr (fun x acc => x + acc) (0 : T) l) ∧
    sum l123 = 6 ∧
    sum (CList.nil : CList Int) = 0 := by
  refine ⟨fun T _ _ l => rfl, by decide, rfl⟩

/--
C6.  `map f l` has the same length as `l` and its i-th element is `f` applied
to the i-th element of `l`; mapping `x -> x * 2` over the demo list `[1,2,3]`
renders as `2 &= 4 &= 6 &= nil`.  (The input list is a pure value in this
embedding, so it is unchanged by the call by construction.)
-/
theorem c6_map_preserves_length_and_order :
    (∀ (T : Type) (f : T → T) (l : CList T), clength (map f l) = clength l) ∧
    (∀ (T : Type) (f : T → T) (l : CList T) (i : Nat),
        nth (map f l) i = Option.map f (nth l i)) ∧
    render (map (fun x => x * 2) l123) = "2 &= 4 &= 6 &= nil" := by
  refine ⟨fun T f l => clength_map f l, fun T f l i => nth_map f l i, by decide⟩

/--
C7.  `filter pred l` contains exactly the elements of `l` satisfying `pred`,
in their original relative order (it equals `List.filter` on the element
sequence), its length is at most that of `l`, and filtering the demo list
`[1,2,3]` with the even predicate renders as `2 &= nil`.
-/
theorem c7_filter_keeps_exactly_matching :
    (∀ (T : Type) (pred : T → Bool) (l : CList T),
        toList (filter pred l) = (toList l).filter pred) ∧
    (∀ (T : Type) (pred : T → Bool) (l : CList T),
        clength (filter pred l) ≤ clength l) ∧
    render (filter evenB l123) = "2 &= nil" := by
  refine ⟨fun T pred l => filter_toList pred l, fun T pred l => ?_, by decide⟩
  rw [clength_eq_length_toList, clength_eq_length_toList, filter_toList]
  exact List.length_filter_le pred (toList l)

/--
C8.  The right-associative infix construction operator builds the same list
as nested constructor calls:
`a &= (b &= (c &= nil)) = cons a (cons b (cons c nil))`.
-/
theorem c8_opAmp_is_nested_cons :
    ∀ (T : Type) (a b c : T),
      opAmp a (opAmp b (opAmp c (CList.nil : CList T)))
        = CList.cons a (CList.cons b (CList.cons c CList.nil)) :=
  fun _ _ _ _ => rfl

/--
C9.  Rendering: the empty list renders as the literal token `nil`, a cons
node renders as the head followed by the token ` &= ` followed by the
rendering of the tail, and the demo list `[1,2,3]` renders as
`1 &= 2 &= 3 &= nil`.
-/
theorem c9_render_recursion :
    ∀ (T : Type) [ToString T] (h : T) (t : CList T),
      render (CList.nil : CList T) = "nil" ∧
      render (CList.cons h t) = toString h ++ " &= " ++ render t ∧
      render l123 = "1 &= 2 &= 3 &= nil" := by
  intro T _ h t
  exact ⟨rfl, rfl, by decide⟩

/--
C10 evaluation at the failing input.  On the driver's own call
`filter(even, [1,2,3])` (src/main.cpp line 190) the code performs 9 `cases`
eliminations although the list has only 4 nodes (3 cons nodes and nil), i.e.
4 visits for the single traversal the specification describes: filter's
combining function re-invokes `filter` on the folded accumulator, so nodes
are visited more than once (exponentially many times on lists whose elements
all satisfy the predicate), contradicting "run in time proportional to the
input size, each node being visited exactly once".
-/
theorem c10_filter_visits_not_linear :
    filterVisits evenB l123 = 9 ∧
    clength l123 + 1 = 4 ∧
    (foldrV refCombine CList.nil l123).2 = 4 ∧
    filterVisits evenB l123 ≠ clength l123 + 1 := by
  refine ⟨by decide, by decide, by decide, by decide⟩

end LADT
